import Mathlib

/-!
Verification of the SSE relay and incremental message-assembly core of the
tryHardNestJS repository (Next.js chat demos).

The embedding covers:
* the client-side stream reader of `phase-3-copilot-agent/src/app/chat/page.tsx`
  (`sendMessage`): streaming UTF-8 decode with a carry buffer, newline
  splitting with retention of the final incomplete line, SSE `data:` line
  handling, JSON delta extraction, and the fold of delta fragments into the
  message list;
* the preference extraction and relay logic of
  `phase-3-copilot-agent/src/app/api/agent/route.ts` (`POST`, streaming
  variant) and `phase-2-agent/src/app/api/agent/route.ts` (`POST`,
  non-streaming variant);
* the `set.prefs` cookie construction of
  `phase-3-copilot-agent/src/app/api/tools/route.ts`.

Strings are modelled as `List Char`s or Lean `String`s; bytes as `Nat`s below
256.  JavaScript `try`/`catch` around `JSON.parse` and `decodeURIComponent`
is modelled by `Option`-valued parsers/decoders.
-/

namespace SseRelay

/-! ## Streaming UTF-8 decoder

Model of `TextDecoder().decode(value, stream := true)` as used by the chat
page's read loop: each call decodes the carried-over incomplete byte sequence
followed by the new chunk, emits the decoded characters, and keeps any
trailing incomplete (but so far well-formed) sequence as the new carry.
Ill-formed sequences produce U+FFFD per the WHATWG byte ranges (a leading
byte-order mark is not stripped; a well-formed SSE stream never carries one).
The page never issues the final flushing `decode()` call, so bytes still in
the carry when the transport closes are dropped — the model mirrors that. -/

/-- Unicode replacement character U+FFFD. -/
def repl : Char := Char.ofNat 0xFFFD

/-- Plain UTF-8 continuation byte: 0x80–0xBF. -/
def cont (b : Nat) : Bool := 0x80 ≤ b && b ≤ 0xBF

/-- WHATWG range for the byte following a 3- or 4-byte leading byte: the
lower/upper bound depends on the leading byte (rules out overlong encodings,
surrogates and values above U+10FFFF). -/
def cont2 (lead b : Nat) : Bool :=
  if lead = 0xE0 then 0xA0 ≤ b && b ≤ 0xBF
  else if lead = 0xED then 0x80 ≤ b && b ≤ 0x9F
  else if lead = 0xF0 then 0x90 ≤ b && b ≤ 0xBF
  else if lead = 0xF4 then 0x80 ≤ b && b ≤ 0x8F
  else cont b

/-- Dispatch one byte when no partial sequence is pending: an ASCII byte is
emitted, a valid leading byte becomes the pending sequence, anything else
(stray continuation byte, invalid lead 0xC0/0xC1/0xF5+) yields U+FFFD. -/
def utf8Start (b : Nat) : List Char × List Nat :=
  if b ≤ 0x7F then ([Char.ofNat b], [])
  else if b ≤ 0xC1 then ([repl], [])
  else if b ≤ 0xF4 then ([], [b])
  else ([repl], [])

/-- Feed one byte to the streaming decoder whose pending partial sequence is
`p` (at most three bytes).  On an invalid continuation byte the decoder emits
U+FFFD for the aborted sequence and reprocesses the byte from the start
state, per the WHATWG algorithm. -/
def utf8Step (p : List Nat) (b : Nat) : List Char × List Nat :=
  match p with
  | [] => utf8Start b
  | [l] =>
    if cont2 l b then
      if l ≤ 0xDF then ([Char.ofNat ((l - 0xC0) * 0x40 + (b - 0x80))], [])
      else ([], [l, b])
    else
      let r := utf8Start b
      (repl :: r.1, r.2)
  | [l, c1] =>
    if cont b then
      if l ≤ 0xEF then ([Char.ofNat ((l - 0xE0) * 0x1000 + (c1 - 0x80) * 0x40 + (b - 0x80))], [])
      else ([], [l, c1, b])
    else
      let r := utf8Start b
      (repl :: r.1, r.2)
  | [l, c1, c2] =>
    if cont b then
      ([Char.ofNat ((l - 0xF0) * 0x40000 + (c1 - 0x80) * 0x1000 +
          (c2 - 0x80) * 0x40 + (b - 0x80))], [])
    else
      let r := utf8Start b
      (repl :: r.1, r.2)
  | _ => ([], [])

/-- One streaming decode call (`decoder.decode(chunk, stream: true)`)
starting from pending state `p`: returns the decoded characters and the
pending partial sequence left for the next call. -/
def utf8Proc (p : List Nat) : List Nat → List Char × List Nat
  | [] => ([], p)
  | b :: bs =>
    let s := utf8Step p b
    let r := utf8Proc s.2 bs
    (s.1 ++ r.1, r.2)

/-- The streaming decoder is a stream homomorphism: decoding `xs ++ ys` in
one call agrees with decoding `xs` and then decoding `ys` from the resulting
pending state. -/
theorem utf8Proc_append (p : List Nat) (xs ys : List Nat) :
    utf8Proc p (xs ++ ys) =
      ((utf8Proc p xs).1 ++ (utf8Proc (utf8Proc p xs).2 ys).1,
        (utf8Proc (utf8Proc p xs).2 ys).2) := by
  induction xs generalizing p with
  | nil => simp [utf8Proc]
  | cons b bs ih => simp [utf8Proc, ih]

/-! ## Line splitting with retained tail

Model of `buffer.split("\n")` followed by `buffer = lines.pop() || ""` in
the read loop: `lsplit` returns the complete lines and the trailing
(possibly incomplete) line retained as the next buffer. -/

/-- Split on `'\n'`: complete lines, and the trailing incomplete line. -/
def lsplit : List Char → List (List Char) × List Char
  | [] => ([], [])
  | c :: cs =>
    let r := lsplit cs
    if c = '\n' then ([] :: r.1, r.2)
    else
      match r.1 with
      | [] => ([], c :: r.2)
      | h :: t => ((c :: h) :: t, r.2)

/-- Line splitting is a stream homomorphism: splitting `a ++ b` in one pass
agrees with splitting `a`, carrying the retained tail into the split of
`b`. -/
theorem lsplit_append (a b : List Char) :
    lsplit (a ++ b) =
      ((lsplit a).1 ++ (lsplit ((lsplit a).2 ++ b)).1,
        (lsplit ((lsplit a).2 ++ b)).2) := by
  induction a with
  | nil => simp [lsplit]
  | cons c a' ih =>
    by_cases hc : c = '\n'
    · simp [lsplit, hc, ih]
    · rcases hA : (lsplit a').1 with _ | ⟨x1, t1⟩ <;>
        rcases hB : (lsplit ((lsplit a').2 ++ b)).1 with _ | ⟨x2, t2⟩ <;>
        simp [lsplit, hc, hA, hB, ih]

/-! ## JSON values and `JSON.parse`

Model of the JavaScript `JSON.parse` used on the payload of each SSE
`data:` line.  Numbers keep their source lexeme (no numeric property of the
program depends on float values); `\uXXXX` escapes map code units to
characters individually (astral surrogate pairs are not recombined — the
streams at issue carry none). -/

/-- A parsed JSON value. -/
inductive Json where
  | null
  | bool (b : Bool)
  | num (lexeme : String)
  | str (s : String)
  | arr (items : List Json)
  | obj (fields : List (String × Json))

/-- JSON insignificant whitespace. -/
def jsonWs (c : Char) : Bool := c = ' ' || c = '\t' || c = '\n' || c = '\r'

/-- Drop leading JSON whitespace. -/
def skipWs (cs : List Char) : List Char := cs.dropWhile jsonWs

/-- Consume the literal `pat` from the front of the input. -/
def dropLit : List Char → List Char → Option (List Char)
  | [], s => some s
  | _ :: _, [] => none
  | p :: ps, c :: cs => if p = c then dropLit ps cs else none

/-- Hexadecimal digit (either case). -/
def isHexCh (c : Char) : Bool :=
  ('0' ≤ c && c ≤ '9') || ('A' ≤ c && c ≤ 'F') || ('a' ≤ c && c ≤ 'f')

/-- Value of a hexadecimal digit. -/
def hexVal (c : Char) : Nat :=
  if c ≤ '9' then c.toNat - 48 else if c ≤ 'F' then c.toNat - 55 else c.toNat - 87

/-- Body of a JSON string after the opening quote: the decoded characters
and the input remaining after the closing quote.  Raw control characters
are rejected, escape sequences are decoded. -/
def strBody : List Char → Option (List Char × List Char)
  | [] => none
  | c :: cs =>
    if c = '"' then some ([], cs)
    else if c = '\\' then
      match cs with
      | [] => none
      | e :: cs2 =>
        if e = '"' || e = '\\' || e = '/' then
          (fun r => (e :: r.1, r.2)) <$> strBody cs2
        else if e = 'b' then (fun r => ('\x08' :: r.1, r.2)) <$> strBody cs2
        else if e = 'f' then (fun r => ('\x0c' :: r.1, r.2)) <$> strBody cs2
        else if e = 'n' then (fun r => ('\n' :: r.1, r.2)) <$> strBody cs2
        else if e = 'r' then (fun r => ('\r' :: r.1, r.2)) <$> strBody cs2
        else if e = 't' then (fun r => ('\t' :: r.1, r.2)) <$> strBody cs2
        else if e = 'u' then
          match cs2 with
          | h1 :: h2 :: h3 :: h4 :: cs3 =>
            if isHexCh h1 && isHexCh h2 && isHexCh h3 && isHexCh h4 then
              (fun r => (Char.ofNat
                (hexVal h1 * 0x1000 + hexVal h2 * 0x100 + hexVal h3 * 0x10 + hexVal h4) ::
                  r.1, r.2)) <$> strBody cs3
            else none
          | _ => none
        else none
    else if c.toNat < 0x20 then none
    else (fun r => (c :: r.1, r.2)) <$> strBody cs

/-- Lexeme of a JSON number from the front of the input, with the remaining
input (sign, integer part without leading zeros, optional fraction and
exponent). -/
def numLex (cs : List Char) : Option (List Char × List Char) :=
  let (sign, cs1) :=
    match cs with
    | '-' :: r => (['-'], r)
    | _ => (([] : List Char), cs)
  match cs1 with
  | [] => none
  | d :: _ =>
    if !d.isDigit then none
    else
      let intPart := if d = '0' then ['0'] else cs1.takeWhile Char.isDigit
      let cs2 := cs1.drop intPart.length
      let (fracPart, cs3) :=
        match cs2 with
        | '.' :: r =>
          let ds := r.takeWhile Char.isDigit
          if ds.isEmpty then (([] : List Char), cs2) else ('.' :: ds, r.drop ds.length)
        | _ => (([] : List Char), cs2)
      if cs3 ≠ cs2 ∧ fracPart = [] then none
      else
        match cs3 with
        | e :: r =>
          if e = 'e' || e = 'E' then
            let (sg, r2) :=
              match r with
              | '+' :: r' => (['+'], r')
              | '-' :: r' => (['-'], r')
              | _ => (([] : List Char), r)
            let ds := r2.takeWhile Char.isDigit
            if ds.isEmpty then none
            else some (sign ++ intPart ++ fracPart ++ e :: sg ++ ds, r2.drop ds.length)
          else some (sign ++ intPart ++ fracPart, cs3)
        | [] => some (sign ++ intPart ++ fracPart, cs3)

mutual

/-- Parse one JSON value (after skipping leading whitespace), returning the
value and the remaining input.  `fuel` bounds the recursion depth. -/
def parseVal : Nat → List Char → Option (Json × List Char)
  | 0, _ => none
  | fuel + 1, cs0 =>
    match skipWs cs0 with
    | [] => none
    | c :: rest =>
      if c = '"' then (fun r => (Json.str (String.mk r.1), r.2)) <$> strBody rest
      else if c = '\x7b' then
        match skipWs rest with
        | '\x7d' :: r2 => some (Json.obj [], r2)
        | cs1 => (fun r => (Json.obj r.1, r.2)) <$> parseMembers fuel cs1
      else if c = '[' then
        match skipWs rest with
        | ']' :: r2 => some (Json.arr [], r2)
        | cs1 => (fun r => (Json.arr r.1, r.2)) <$> parseItems fuel cs1
      else if c = 't' then (fun r => (Json.bool true, r)) <$> dropLit "rue".data rest
      else if c = 'f' then (fun r => (Json.bool false, r)) <$> dropLit "alse".data rest
      else if c = 'n' then (fun r => (Json.null, r)) <$> dropLit "ull".data rest
      else (fun r => (Json.num (String.mk r.1), r.2)) <$> numLex (c :: rest)

/-- Parse the comma-separated items of an array up to the closing bracket. -/
def parseItems : Nat → List Char → Option (List Json × List Char)
  | 0, _ => none
  | fuel + 1, cs => do
    let (v, r1) ← parseVal fuel cs
    match skipWs r1 with
    | ',' :: r3 => do
      let (vs, r4) ← parseItems fuel r3
      pure (v :: vs, r4)
    | ']' :: r3 => pure ([v], r3)
    | _ => none

/-- Parse the comma-separated members of an object up to the closing brace. -/
def parseMembers : Nat → List Char → Option (List (String × Json) × List Char)
  | 0, _ => none
  | fuel + 1, cs =>
    match skipWs cs with
    | '"' :: r1 => do
      let (k, r2) ← strBody r1
      match skipWs r2 with
      | ':' :: r3 => do
        let (v, r4) ← parseVal fuel r3
        match skipWs r4 with
        | ',' :: r5 => do
          let (ms, r6) ← parseMembers fuel r5
          pure ((String.mk k, v) :: ms, r6)
        | '\x7d' :: r5 => pure ([(String.mk k, v)], r5)
        | _ => none
      | _ => none
    | _ => none

end

/-- `JSON.parse`: parse a complete JSON text; `none` models a thrown
`SyntaxError`. -/
def jparse (cs : List Char) : Option Json :=
  match parseVal (2 * cs.length + 2) cs with
  | some (v, rest) => if skipWs rest = [] then some v else none
  | none => none

/-! ## Delta extraction and the message fold

Model of the per-line handling in `sendMessage` (chat page): blank lines and
the `data: [DONE]` sentinel are skipped, `data: ` lines are JSON-parsed
(parse failures silently ignored), and `json.choices?.[0]?.delta?.content`
is appended to the trailing assistant message. -/

/-- Property access on a JSON value (objects only; `JSON.parse` keeps the
last of duplicate keys). -/
def jGet (j : Json) (k : String) : Option Json :=
  match j with
  | .obj fs => ((fs.filter (fun p => p.1 = k)).getLast?).map (fun p => p.2)
  | _ => none

/-- Index access on a JSON array. -/
def jIdx (j : Json) (i : Nat) : Option Json :=
  match j with
  | .arr xs => xs.get? i
  | _ => none

/-- `json.choices?.[0]?.delta?.content || ""`: the delta text fragment of
one SSE event.  The protocol carries strings here; a non-string value at the
path counts as absent. -/
def deltaOf (j : Json) : String :=
  match (((jGet j "choices").bind (fun x => jIdx x 0)).bind
      (fun x => jGet x "delta")).bind (fun x => jGet x "content") with
  | some (.str s) => s
  | _ => ""

/-- Whitespace removed by JavaScript `String.prototype.trim`. -/
def jsWsCh (c : Char) : Bool :=
  c.toNat = 9 || c.toNat = 10 || c.toNat = 11 || c.toNat = 12 || c.toNat = 13 ||
  c.toNat = 32 || c.toNat = 0xA0 || c.toNat = 0x1680 ||
  (0x2000 ≤ c.toNat && c.toNat ≤ 0x200A) || c.toNat = 0x2028 || c.toNat = 0x2029 ||
  c.toNat = 0x202F || c.toNat = 0x205F || c.toNat = 0x3000 || c.toNat = 0xFEFF

/-- JavaScript `trim`: strip whitespace from both ends. -/
def jsTrim (s : List Char) : List Char :=
  ((s.dropWhile jsWsCh).reverse.dropWhile jsWsCh).reverse

/-- A chat message: `role` is `"user"` or `"assistant"` at the value level,
`content` the text. -/
structure Msg where
  role : String
  content : String
deriving DecidableEq

/-- Fold one delta fragment into the conversation: append it to the content
of the last message when that message exists and has role `assistant`;
otherwise return the list unchanged. -/
def applyDelta (m : List Msg) (delta : String) : List Msg :=
  match m.getLast? with
  | some last =>
    if last.role = "assistant" then
      m.dropLast ++ [Msg.mk last.role (last.content ++ delta)]
    else m
  | none => m

/-- Process one complete SSE line: skip blank lines and `data: [DONE]`;
for `data: ` lines parse the JSON payload (ignoring failures) and fold a
non-empty delta into the conversation. -/
def processLine (ms : List Msg) (line : List Char) : List Msg :=
  if jsTrim line = [] then ms
  else if line = "data: [DONE]".data then ms
  else
    match dropLit "data: ".data line with
    | some rest =>
      match jparse rest with
      | some j =>
        let d := deltaOf j
        if d ≠ "" then applyDelta ms d else ms
      | none => ms
    | none => ms

/-- State of the read loop: UTF-8 decoder pending bytes, the retained
incomplete line, and the conversation. -/
structure AsmState where
  carry : List Nat
  buf : List Char
  msgs : List Msg
deriving DecidableEq

/-- One iteration of the read loop on a received chunk: streaming-decode the
chunk, split on newlines keeping the final incomplete line, and process each
complete line. -/
def chunkStep (st : AsmState) (chunk : List Nat) : AsmState :=
  let d := utf8Proc st.carry chunk
  let p := lsplit (st.buf ++ d.1)
  AsmState.mk d.2 p.2 (p.1.foldl processLine st.msgs)

/-- The full read loop over a chunked byte stream, starting from the given
conversation.  Leftover decoder/line state at end of stream is dropped, as
in the source (the loop exits on `done` without flushing). -/
def runAsm (init : List Msg) (chunks : List (List Nat)) : AsmState :=
  chunks.foldl chunkStep (AsmState.mk [] [] init)

/-- Processing two consecutive chunks is the same as processing their
concatenation. -/
theorem chunkStep_append (st : AsmState) (c1 c2 : List Nat) :
    chunkStep (chunkStep st c1) c2 = chunkStep st (c1 ++ c2) := by
  have h1 := utf8Proc_append st.carry c1 c2
  have e1 : (utf8Proc st.carry (c1 ++ c2)).1 =
      (utf8Proc st.carry c1).1 ++ (utf8Proc (utf8Proc st.carry c1).2 c2).1 := by rw [h1]
  have e2 : (utf8Proc st.carry (c1 ++ c2)).2 =
      (utf8Proc (utf8Proc st.carry c1).2 c2).2 := by rw [h1]
  have h2 := lsplit_append (st.buf ++ (utf8Proc st.carry c1).1)
      ((utf8Proc (utf8Proc st.carry c1).2 c2).1)
  have e3 : (lsplit (st.buf ++ (utf8Proc st.carry c1).1 ++
      (utf8Proc (utf8Proc st.carry c1).2 c2).1)).1 =
      (lsplit (st.buf ++ (utf8Proc st.carry c1).1)).1 ++
        (lsplit ((lsplit (st.buf ++ (utf8Proc st.carry c1).1)).2 ++
          (utf8Proc (utf8Proc st.carry c1).2 c2).1)).1 := by rw [h2]
  have e4 : (lsplit (st.buf ++ (utf8Proc st.carry c1).1 ++
      (utf8Proc (utf8Proc st.carry c1).2 c2).1)).2 =
      (lsplit ((lsplit (st.buf ++ (utf8Proc st.carry c1).1)).2 ++
        (utf8Proc (utf8Proc st.carry c1).2 c2).1)).2 := by rw [h2]
  simp only [chunkStep, e1, e2, ← List.append_assoc, e3, e4, List.foldl_append]

/-- Processing an empty chunk from the initial state changes nothing. -/
theorem chunkStep_nil_init (init : List Msg) :
    chunkStep (AsmState.mk [] [] init) [] = AsmState.mk [] [] init := rfl

/-- Folding the read loop over a chunk list equals one step on the
concatenation of the chunks. -/
theorem foldl_chunkStep (cs : List (List Nat)) : ∀ (st : AsmState) (c : List Nat),
    List.foldl chunkStep (chunkStep st c) cs = chunkStep st (c ++ cs.flatten) := by
  induction cs with
  | nil => intro st c; simp
  | cons c2 cs2 ih =>
    intro st c
    simp only [List.foldl_cons, List.flatten_cons]
    rw [chunkStep_append st c c2, ih st (c ++ c2), List.append_assoc]

/-- The read loop over any chunking equals the read loop over the whole
payload delivered as one chunk. -/
theorem runAsm_single (init : List Msg) (chunks : List (List Nat)) :
    runAsm init chunks = runAsm init [chunks.flatten] := by
  cases chunks with
  | nil => rfl
  | cons c cs =>
    simp only [runAsm, List.foldl_cons, List.foldl_nil, List.flatten_cons]
    exact foldl_chunkStep cs (AsmState.mk [] [] init) c

/-! ## Helper lemmas for the line processor -/

/-- Consuming a literal prefix that is actually there returns the rest. -/
theorem dropLit_self (p s : List Char) : dropLit p (p ++ s) = some s := by
  induction p with
  | nil => rfl
  | cons c ps ih => simp [dropLit, ih]

/-- An element that the predicate rejects survives `dropWhile`. -/
theorem mem_dropWhile_of_mem {c : Char} {w : Char → Bool} :
    ∀ {l : List Char}, c ∈ l → w c = false → c ∈ l.dropWhile w
  | [], h, _ => absurd h (List.not_mem_nil c)
  | x :: xs, h, hw => by
    by_cases hx : w x
    · rw [List.dropWhile_cons_of_pos hx]
      rcases List.mem_cons.mp h with rfl | hm
      · rw [hx] at hw; cases hw
      · exact mem_dropWhile_of_mem hm hw
    · rwa [List.dropWhile_cons_of_neg hx]

/-- A list containing a non-whitespace character does not trim to empty. -/
theorem jsTrim_ne_nil (c : Char) {l : List Char} (hc : c ∈ l)
    (hw : jsWsCh c = false) : jsTrim l ≠ [] := by
  intro h
  have h1 : (l.dropWhile jsWsCh).reverse.dropWhile jsWsCh = [] := by
    have := congrArg List.reverse h
    simpa [jsTrim] using this
  rw [List.dropWhile_eq_nil_iff] at h1
  have hmem : c ∈ (l.dropWhile jsWsCh).reverse :=
    List.mem_reverse.mpr (mem_dropWhile_of_mem hc hw)
  have := h1 c hmem
  rw [hw] at this
  cases this

/-! ## Claims about the Stream Reader / Incremental Assembler -/

/-- C1: chunk-boundary invariance of the incremental assembler.  For every
byte payload and every two ways of splitting it into chunks (in particular
any splitting versus the single-chunk delivery, with boundaries allowed
mid-UTF-8-codepoint, mid-line or mid-JSON-token), running the read loop
produces the same final state — decoder carry, retained line and assembled
conversation, hence the same final assistant text. -/
theorem assembler_chunk_invariance (init : List Msg) (chunksA chunksB : List (List Nat))
    (h : chunksA.flatten = chunksB.flatten) :
    runAsm init chunksA = runAsm init chunksB := by
  rw [runAsm_single init chunksA, runAsm_single init chunksB, h]

/-- UTF-8 encoding of one character. -/
def utf8Char (c : Char) : List Nat :=
  if c.toNat ≤ 0x7F then [c.toNat]
  else if c.toNat ≤ 0x7FF then [0xC0 + c.toNat / 0x40, 0x80 + c.toNat % 0x40]
  else if c.toNat ≤ 0xFFFF then
    [0xE0 + c.toNat / 0x1000, 0x80 + c.toNat / 0x40 % 0x40, 0x80 + c.toNat % 0x40]
  else
    [0xF0 + c.toNat / 0x40000, 0x80 + c.toNat / 0x1000 % 0x40,
      0x80 + c.toNat / 0x40 % 0x40, 0x80 + c.toNat % 0x40]

/-- UTF-8 encoding of a character list. -/
def utf8Enc (l : List Char) : List Nat := (l.map utf8Char).flatten

/-- UTF-8 encoding of a string. -/
def utf8Bytes (s : String) : List Nat := utf8Enc s.data

/-- A one-event SSE payload whose delta contains a two-byte character. -/
def demoPayload : List Nat :=
  utf8Bytes "data: \x7b\"choices\":[\x7b\"delta\":\x7b\"content\":\"é!\"\x7d\x7d]\x7d\n\n"

/-- Witness for C1: splitting the demo payload in the middle of the two-byte
encoding of `é` (byte 40 falls between 0xC3 and 0xA9) gives the same result
as the single-chunk delivery. -/
theorem assembler_chunk_invariance_witness :
    runAsm [Msg.mk "assistant" ""] [demoPayload.take 40, demoPayload.drop 40] =
      runAsm [Msg.mk "assistant" ""] [demoPayload] :=
  assembler_chunk_invariance [Msg.mk "assistant" ""]
    [demoPayload.take 40, demoPayload.drop 40] [demoPayload] (by decide)

/-- The byte stream of end-to-end scenario 1. -/
def scenario1 : List Nat :=
  utf8Bytes "data: \x7b\"choices\":[\x7b\"delta\":\x7b\"content\":\"Hel\"\x7d\x7d]\x7d\n\ndata: \x7b\"choices\":[\x7b\"delta\":\x7b\"content\":\"lo\"\x7d\x7d]\x7d\n\ndata: [DONE]\n\n"

/-- C2: feeding the scenario-1 byte stream to the assembler, starting from a
conversation ending in an empty assistant message, yields exactly `"Hello"`
as the trailing assistant content (fragments concatenated in stream
order). -/
theorem assembler_end_to_end_hello :
    (runAsm [Msg.mk "user" "Hi", Msg.mk "assistant" ""] [scenario1]).msgs =
      [Msg.mk "user" "Hi", Msg.mk "assistant" "Hello"] := by decide

/-- C3: a `data: ` line whose payload is not valid JSON is silently skipped:
it emits no fragment, leaves the conversation unchanged, does not abort, and
the remaining lines produce exactly what they would produce without it. -/
theorem malformed_line_skipped (raw : List Char) (ms : List Msg)
    (lines : List (List Char)) (h : jparse raw = none) :
    List.foldl processLine ms (("data: ".data ++ raw) :: lines) =
      List.foldl processLine ms lines := by
  have hline : processLine ms ("data: ".data ++ raw) = ms := by
    unfold processLine
    have ht : jsTrim ("data: ".data ++ raw) ≠ [] :=
      jsTrim_ne_nil 'd' (by simp) (by decide)
    rw [if_neg ht]
    by_cases hd : "data: ".data ++ raw = "data: [DONE]".data
    · rw [if_pos hd]
    · rw [if_neg hd, dropLit_self]
      simp only [h]
  rw [List.foldl_cons, hline]

/-- Witness for C3: the line `data: \x7bmalformed json` before a well-formed
delta line changes nothing about the processing of the latter. -/
theorem malformed_line_skipped_witness :
    List.foldl processLine [Msg.mk "assistant" ""]
      (("data: ".data ++ "\x7bmalformed json".data) ::
        ["data: \x7b\"choices\":[\x7b\"delta\":\x7b\"content\":\"ok\"\x7d\x7d]\x7d".data]) =
      List.foldl processLine [Msg.mk "assistant" ""]
        ["data: \x7b\"choices\":[\x7b\"delta\":\x7b\"content\":\"ok\"\x7d\x7d]\x7d".data] :=
  malformed_line_skipped "\x7bmalformed json".data [Msg.mk "assistant" ""]
    ["data: \x7b\"choices\":[\x7b\"delta\":\x7b\"content\":\"ok\"\x7d\x7d]\x7d".data] rfl

/-- C4: a blank (empty or whitespace-only) line and the sentinel line
`data: [DONE]` never produce a fragment and never change the
conversation. -/
theorem blank_and_done_inert (ms : List Msg) (line : List Char)
    (h : jsTrim line = [] ∨ line = "data: [DONE]".data) :
    processLine ms line = ms := by
  unfold processLine
  rcases h with h | h
  · rw [if_pos h]
  · by_cases h0 : jsTrim line = []
    · rw [if_pos h0]
    · rw [if_neg h0, if_pos h]

/-- Witness for C4: the sentinel line leaves a concrete conversation
untouched. -/
theorem blank_and_done_inert_witness :
    processLine [Msg.mk "assistant" "x"] "data: [DONE]".data =
      [Msg.mk "assistant" "x"] :=
  blank_and_done_inert [Msg.mk "assistant" "x"] "data: [DONE]".data (Or.inr rfl)

/-- C10: frame property of the fragment fold.  Applying a fragment never
changes any message before the last (`dropLast` is preserved); when the last
message has role `assistant` the fragment is appended to its content; when
the last message has another role, or the conversation is empty, the
conversation is returned entirely unchanged (the fragment is dropped; the
fold is a total function, so no fault is raised). -/
theorem applyDelta_frame (m : List Msg) (delta : String) :
    (applyDelta m delta).dropLast = m.dropLast ∧
    (∀ last, m.getLast? = some last → last.role = "assistant" →
      applyDelta m delta = m.dropLast ++ [Msg.mk last.role (last.content ++ delta)]) ∧
    (∀ last, m.getLast? = some last → last.role ≠ "assistant" →
      applyDelta m delta = m) ∧
    (m.getLast? = none → applyDelta m delta = m) := by
  refine ⟨?_, ?_, ?_, ?_⟩
  · cases h : m.getLast? with
    | none => simp [applyDelta, h]
    | some last =>
      by_cases hr : last.role = "assistant"
      · simp [applyDelta, h, hr]
      · simp [applyDelta, h, hr]
  · intro last h hr
    simp [applyDelta, h, hr]
  · intro last h hr
    simp [applyDelta, h, hr]
  · intro h
    simp [applyDelta, h]

/-- Witness for C10: appending a fragment to a conversation whose last
message is an assistant message changes only that message. -/
theorem applyDelta_frame_witness :
    applyDelta [Msg.mk "user" "a", Msg.mk "assistant" "b"] "c" =
      [Msg.mk "user" "a", Msg.mk "assistant" "bc"] := by
  have h := (applyDelta_frame [Msg.mk "user" "a", Msg.mk "assistant" "b"] "c").2.1
    (Msg.mk "assistant" "b") rfl rfl
  rw [h]; decide

/-! ## Preference extraction (agent route) and preference cookies (tools route)

Model of the cookie handling of the phase-3 agent route: the regular
expressions `translateLang=([^;]+)` and `injectNote=([^;]+)` applied to the
raw `cookie` header (substring search with a non-empty capture of non-`;`
characters), `trim`, `decodeURIComponent` of the captured value, and the
composed system prompt.  The tools route's `set.prefs` action sets the
matching cookies with `encodeURIComponent`-encoded values. -/

/-- First match of `pat` followed by a non-empty run of non-`;` characters,
scanning positions left to right (the semantics of `re.exec` with the
pattern `pat([^;]+)` for a literal `pat`): returns the captured run. -/
def execCap (pat : List Char) : List Char → Option (List Char)
  | [] => none
  | c :: rest =>
    match dropLit pat (c :: rest) with
    | some rem =>
      let v := rem.takeWhile (fun x => x ≠ ';')
      if v = [] then execCap pat rest else some v
    | none => execCap pat rest

/-- Characters `encodeURIComponent` leaves unescaped (letters, digits, and
`-` `_` `.` `!` `~` `*` `(` `)` and the apostrophe). -/
def uriSafe : List Char :=
  "ABCDEFGHIJKLMNOPQRSTUVWXYZabcdefghijklmnopqrstuvwxyz0123456789-_.!~*()".data ++
    [Char.ofNat 39]

/-- Hexadecimal digit characters (upper case, as produced by the encoder). -/
def hexDigits : List Char := "0123456789ABCDEF".data

/-- Upper-case hexadecimal digit for a value below 16. -/
def hexDig (n : Nat) : Char := hexDigits.getD n '0'

/-- `encodeURIComponent`: unescaped characters pass through, all others are
percent-encoded byte-wise from their UTF-8 encoding. -/
def encURI (s : List Char) : List Char :=
  (s.map (fun c =>
    if c ∈ uriSafe then [c]
    else ((utf8Char c).map (fun b => ['%', hexDig (b / 16), hexDig (b % 16)])).flatten)).flatten

mutual

/-- Percent-decode to bytes: `%XX` becomes the byte `XX`, any other
character contributes its UTF-8 bytes; `none` models a malformed escape. -/
def pctBytes : List Char → Option (List Nat)
  | [] => some []
  | c :: rest =>
    if c = '%' then pctEsc rest
    else (fun bs => utf8Char c ++ bs) <$> pctBytes rest

/-- The two hexadecimal digits expected after a `%`. -/
def pctEsc : List Char → Option (List Nat)
  | h1 :: h2 :: rest2 =>
    if isHexCh h1 && isHexCh h2 then
      (fun bs => (hexVal h1 * 16 + hexVal h2) :: bs) <$> pctBytes rest2
    else none
  | _ => none

end

/-- One byte of strict UTF-8 decoding from pending prefix `p`: `none` on
any ill-formed byte (the URIError case of `decodeURIComponent`). -/
def stepStrict (p : List Nat) (b : Nat) : Option (List Char × List Nat) :=
  match p with
  | [] =>
    if b ≤ 0x7F then some ([Char.ofNat b], [])
    else if b < 0xC2 then none
    else if b ≤ 0xF4 then some ([], [b])
    else none
  | [l] =>
    if cont2 l b then
      if l ≤ 0xDF then some ([Char.ofNat ((l - 0xC0) * 0x40 + (b - 0x80))], [])
      else some ([], [l, b])
    else none
  | [l, c1] =>
    if cont b then
      if l ≤ 0xEF then
        some ([Char.ofNat ((l - 0xE0) * 0x1000 + (c1 - 0x80) * 0x40 + (b - 0x80))], [])
      else some ([], [l, c1, b])
    else none
  | [l, c1, c2] =>
    if cont b then
      some ([Char.ofNat ((l - 0xF0) * 0x40000 + (c1 - 0x80) * 0x1000 +
        (c2 - 0x80) * 0x40 + (b - 0x80))], [])
    else none
  | _ => none

/-- Strict UTF-8 decoding from pending prefix `p`; a trailing incomplete
sequence is also an error. -/
def utf8StrictGo (p : List Nat) : List Nat → Option (List Char)
  | [] => match p with | [] => some [] | _ => none
  | b :: bs =>
    (stepStrict p b).bind fun s => (fun cs => s.1 ++ cs) <$> utf8StrictGo s.2 bs

/-- Strict UTF-8 decoding of a byte list. -/
def utf8Strict (l : List Nat) : Option (List Char) := utf8StrictGo [] l

/-- `decodeURIComponent`: percent-decode, then strict UTF-8 decode; `none`
models a thrown `URIError`. -/
def decURI (s : List Char) : Option (List Char) := (pctBytes s).bind utf8Strict

/-- The default system prompt used when no preference cookie is present. -/
def defaultSys : List Char := "Tu es un assistant utile et concis.".data

/-- `systemParts.join(" ")`. -/
def joinSpace (ps : List (List Char)) : List Char := (List.intersperse " ".data ps).flatten

/-- The Preference Extractor of the phase-3 agent route: extract and trim
the `translateLang` and `injectNote` cookie values, percent-decode each
present value into a directive, and join the directives — or fall back to
the fixed default prompt.  `none` models a `URIError` escaping from
`decodeURIComponent` (caught further out by the route handler). -/
def prefsOf (cookie : List Char) : Option (List Char) :=
  let tl := jsTrim ((execCap "translateLang=".data cookie).getD [])
  let inj := jsTrim ((execCap "injectNote=".data cookie).getD [])
  let parts1 : Option (List (List Char)) :=
    if tl ≠ [] then
      (fun d => ["Tu dois répondre en ".data ++ d ++ ".".data]) <$> decURI tl
    else some []
  let parts2 : Option (List (List Char)) :=
    if inj ≠ [] then (fun p d => p ++ [d]) <$> parts1 <*> decURI inj
    else parts1
  (fun ps => if ps = [] then defaultSys else joinSpace ps) <$> parts2

/-- The `set.prefs` action of the tools route: the `set-cookie` header
values appended for a present (truthy) `translateLang` and a present string
`injectNote`. -/
def setPrefsCookies (tl inj : Option String) : List (List Char) :=
  (match tl with
   | some v =>
     if v ≠ "" then
       ["translateLang=".data ++ encURI v.data ++ "; Path=/; HttpOnly; SameSite=Lax".data]
     else []
   | none => []) ++
  (match inj with
   | some v =>
     ["injectNote=".data ++ encURI v.data ++ "; Path=/; HttpOnly; SameSite=Lax".data]
   | none => [])

/-! ## Round-trip lemmas for the cookie encoding -/

/-- A scalar value is below 0x110000. -/
theorem char_toNat_lt (c : Char) : c.toNat < 0x110000 := by
  rcases c.valid with h | h
  · exact Nat.lt_trans h (by norm_num)
  · exact h.2

/-- A scalar value is not a surrogate. -/
theorem char_not_surrogate (c : Char) : c.toNat < 0xD800 ∨ 0xDFFF < c.toNat := by
  rcases c.valid with h | h
  · exact Or.inl h
  · exact Or.inr h.1

/-- Every encoded byte is below 256. -/
theorem utf8Char_lt (c : Char) : ∀ b ∈ utf8Char c, b < 256 := by
  have hlt := char_toNat_lt c
  intro b hb
  unfold utf8Char at hb
  split_ifs at hb <;> simp at hb <;> omega

/-- The encoder never returns the empty byte list. -/
theorem utf8Char_ne_nil (c : Char) : utf8Char c ≠ [] := by
  unfold utf8Char
  split_ifs <;> simp

/-- Decoding step: an ASCII byte. -/
theorem utf8Strict_cons1 (b : Nat) (bs : List Nat) (h1 : b ≤ 0x7F) :
    utf8Strict (b :: bs) = (fun cs => Char.ofNat b :: cs) <$> utf8Strict bs := by
  have hs : stepStrict [] b = some ([Char.ofNat b], []) := by simp [stepStrict, h1]
  simp [utf8Strict, utf8StrictGo, hs, Function.comp_def]

/-- Decoding step: a two-byte sequence. -/
theorem utf8Strict_cons2 (b1 b2 : Nat) (bs : List Nat) (h1 : ¬ b1 ≤ 0x7F)
    (h2 : ¬ b1 < 0xC2) (h3 : b1 ≤ 0xDF) (h4 : cont2 b1 b2 = true) :
    utf8Strict (b1 :: b2 :: bs) =
      (fun cs => Char.ofNat ((b1 - 0xC0) * 0x40 + (b2 - 0x80)) :: cs) <$> utf8Strict bs := by
  have hs1 : stepStrict [] b1 = some ([], [b1]) := by
    simp [stepStrict, h1, h2, show b1 ≤ 0xF4 by omega]
  have hs2 : stepStrict [b1] b2 =
      some ([Char.ofNat ((b1 - 0xC0) * 0x40 + (b2 - 0x80))], []) := by
    simp [stepStrict, h3, h4]
  simp [utf8Strict, utf8StrictGo, hs1, hs2, Function.comp_def]

/-- Decoding step: a three-byte sequence. -/
theorem utf8Strict_cons3 (b1 b2 b3 : Nat) (bs : List Nat) (h1 : ¬ b1 ≤ 0xDF)
    (h2 : b1 ≤ 0xEF) (h3 : cont2 b1 b2 = true) (h4 : cont b3 = true) :
    utf8Strict (b1 :: b2 :: b3 :: bs) =
      (fun cs => Char.ofNat ((b1 - 0xE0) * 0x1000 + (b2 - 0x80) * 0x40 + (b3 - 0x80)) :: cs) <$>
        utf8Strict bs := by
  have hs1 : stepStrict [] b1 = some ([], [b1]) := by
    simp [stepStrict, show ¬ b1 ≤ 0x7F by omega, show ¬ b1 < 0xC2 by omega, show b1 ≤ 0xF4 by omega]
  have hs2 : stepStrict [b1] b2 = some ([], [b1, b2]) := by
    simp [stepStrict, h1, h3]
  have hs3 : stepStrict [b1, b2] b3 =
      some ([Char.ofNat ((b1 - 0xE0) * 0x1000 + (b2 - 0x80) * 0x40 + (b3 - 0x80))], []) := by
    simp [stepStrict, h2, h4]
  simp [utf8Strict, utf8StrictGo, hs1, hs2, hs3, Function.comp_def]

/-- Decoding step: a four-byte sequence. -/
theorem utf8Strict_cons4 (b1 b2 b3 b4 : Nat) (bs : List Nat) (h1 : ¬ b1 ≤ 0xDF)
    (h2 : ¬ b1 ≤ 0xEF) (h3 : b1 ≤ 0xF4) (h4 : cont2 b1 b2 = true)
    (h5 : cont b3 = true) (h6 : cont b4 = true) :
    utf8Strict (b1 :: b2 :: b3 :: b4 :: bs) =
      (fun cs => Char.ofNat ((b1 - 0xF0) * 0x40000 + (b2 - 0x80) * 0x1000 +
        (b3 - 0x80) * 0x40 + (b4 - 0x80)) :: cs) <$> utf8Strict bs := by
  have hs1 : stepStrict [] b1 = some ([], [b1]) := by
    simp [stepStrict, show ¬ b1 ≤ 0x7F by omega, show ¬ b1 < 0xC2 by omega, h3]
  have hs2 : stepStrict [b1] b2 = some ([], [b1, b2]) := by
    simp [stepStrict, h1, h4]
  have hs3 : stepStrict [b1, b2] b3 = some ([], [b1, b2, b3]) := by
    simp [stepStrict, h2, h5]
  have hs4 : stepStrict [b1, b2, b3] b4 =
      some ([Char.ofNat ((b1 - 0xF0) * 0x40000 + (b2 - 0x80) * 0x1000 +
        (b3 - 0x80) * 0x40 + (b4 - 0x80))], []) := by
    simp [stepStrict, h6]
  simp [utf8Strict, utf8StrictGo, hs1, hs2, hs3, hs4, Function.comp_def]

/-- Decoding the encoding of one character, followed by arbitrary bytes. -/
theorem utf8Strict_encChar (c : Char) (bs : List Nat) :
    utf8Strict (utf8Char c ++ bs) = (fun cs => c :: cs) <$> utf8Strict bs := by
  have hlt : c.toNat < 0x110000 := char_toNat_lt c
  have hsur : c.toNat < 0xD800 ∨ 0xDFFF < c.toNat := char_not_surrogate c
  by_cases h1 : c.toNat ≤ 0x7F
  · have he : utf8Char c = [c.toNat] := by simp [utf8Char, h1]
    rw [he, List.cons_append, List.nil_append, utf8Strict_cons1 _ _ h1, Char.ofNat_toNat]
  · by_cases h2 : c.toNat ≤ 0x7FF
    · have he : utf8Char c = [0xC0 + c.toNat / 0x40, 0x80 + c.toNat % 0x40] := by
        simp [utf8Char, h1, h2]
      rw [he]
      rw [show [0xC0 + c.toNat / 0x40, 0x80 + c.toNat % 0x40] ++ bs =
        (0xC0 + c.toNat / 0x40) :: (0x80 + c.toNat % 0x40) :: bs from rfl]
      rw [utf8Strict_cons2 _ _ _ (by omega) (by omega) (by omega)
        (by unfold cont2; rw [if_neg (by omega), if_neg (by omega), if_neg (by omega),
          if_neg (by omega)]; simp [cont]; omega)]
      rw [show (0xC0 + c.toNat / 0x40 - 0xC0) * 0x40 + (0x80 + c.toNat % 0x40 - 0x80) =
        c.toNat by omega, Char.ofNat_toNat]
    · by_cases h3 : c.toNat ≤ 0xFFFF
      · have he : utf8Char c =
            [0xE0 + c.toNat / 0x1000, 0x80 + c.toNat / 0x40 % 0x40, 0x80 + c.toNat % 0x40] := by
          simp [utf8Char, h1, h2, h3]
        have hcont2 : cont2 (0xE0 + c.toNat / 0x1000) (0x80 + c.toNat / 0x40 % 0x40) = true := by
          unfold cont2
          by_cases hE0 : 0xE0 + c.toNat / 0x1000 = 0xE0
          · rw [if_pos hE0]
            simp only [Bool.and_eq_true, decide_eq_true_eq]
            omega
          · rw [if_neg hE0]
            by_cases hED : 0xE0 + c.toNat / 0x1000 = 0xED
            · rcases hsur with hs | hs
              · rw [if_pos hED]
                simp only [Bool.and_eq_true, decide_eq_true_eq]
                omega
              · exfalso; omega
            · rw [if_neg hED, if_neg (by omega), if_neg (by omega)]
              simp only [cont, Bool.and_eq_true, decide_eq_true_eq]
              omega
        rw [he]
        rw [show [0xE0 + c.toNat / 0x1000, 0x80 + c.toNat / 0x40 % 0x40,
          0x80 + c.toNat % 0x40] ++ bs = (0xE0 + c.toNat / 0x1000) ::
          (0x80 + c.toNat / 0x40 % 0x40) :: (0x80 + c.toNat % 0x40) :: bs from rfl]
        rw [utf8Strict_cons3 _ _ _ _ (by omega) (by omega) hcont2
          (by simp only [cont, Bool.and_eq_true, decide_eq_true_eq]; omega)]
        rw [show (0xE0 + c.toNat / 0x1000 - 0xE0) * 0x1000 +
          (0x80 + c.toNat / 0x40 % 0x40 - 0x80) * 0x40 + (0x80 + c.toNat % 0x40 - 0x80) =
          c.toNat by omega, Char.ofNat_toNat]
      · have he : utf8Char c =
            [0xF0 + c.toNat / 0x40000, 0x80 + c.toNat / 0x1000 % 0x40,
              0x80 + c.toNat / 0x40 % 0x40, 0x80 + c.toNat % 0x40] := by
          simp [utf8Char, h1, h2, h3]
        have hcont2 : cont2 (0xF0 + c.toNat / 0x40000) (0x80 + c.toNat / 0x1000 % 0x40) = true := by
          unfold cont2
          rw [if_neg (by omega), if_neg (by omega)]
          by_cases hF0 : 0xF0 + c.toNat / 0x40000 = 0xF0
          · rw [if_pos hF0]
            simp only [Bool.and_eq_true, decide_eq_true_eq]
            omega
          · rw [if_neg hF0]
            by_cases hF4 : 0xF0 + c.toNat / 0x40000 = 0xF4
            · rw [if_pos hF4]
              simp only [Bool.and_eq_true, decide_eq_true_eq]
              omega
            · rw [if_neg hF4]
              simp only [cont, Bool.and_eq_true, decide_eq_true_eq]
              omega
        rw [he]
        rw [show [0xF0 + c.toNat / 0x40000, 0x80 + c.toNat / 0x1000 % 0x40,
          0x80 + c.toNat / 0x40 % 0x40, 0x80 + c.toNat % 0x40] ++ bs =
          (0xF0 + c.toNat / 0x40000) :: (0x80 + c.toNat / 0x1000 % 0x40) ::
          (0x80 + c.toNat / 0x40 % 0x40) :: (0x80 + c.toNat % 0x40) :: bs from rfl]
        rw [utf8Strict_cons4 _ _ _ _ _ (by omega) (by omega) (by omega) hcont2
          (by simp only [cont, Bool.and_eq_true, decide_eq_true_eq]; omega)
          (by simp only [cont, Bool.and_eq_true, decide_eq_true_eq]; omega)]
        rw [show (0xF0 + c.toNat / 0x40000 - 0xF0) * 0x40000 +
          (0x80 + c.toNat / 0x1000 % 0x40 - 0x80) * 0x1000 +
          (0x80 + c.toNat / 0x40 % 0x40 - 0x80) * 0x40 + (0x80 + c.toNat % 0x40 - 0x80) =
          c.toNat by omega, Char.ofNat_toNat]

/-- Strict decoding inverts the encoder. -/
theorem utf8Strict_utf8Enc (s : List Char) : utf8Strict (utf8Enc s) = some s := by
  induction s with
  | nil => rfl
  | cons c s2 ih =>
    have he : utf8Enc (c :: s2) = utf8Char c ++ utf8Enc s2 := by simp [utf8Enc]
    rw [he, utf8Strict_encChar, ih]
    rfl

/-- Percent-decoding a run of percent-encoded bytes recovers the bytes. -/
theorem pctBytes_escaped (bs : List Nat) (h : ∀ b ∈ bs, b < 256) (t : List Char) :
    pctBytes ((bs.map (fun b => ['%', hexDig (b / 16), hexDig (b % 16)])).flatten ++ t) =
      (fun r => bs ++ r) <$> pctBytes t := by
  induction bs with
  | nil => simp
  | cons b bs2 ih =>
    have hb : b < 256 := h b (by simp)
    have hhV : ∀ n < 16, hexVal (hexDig n) = n ∧ isHexCh (hexDig n) = true := by decide
    have hhi := hhV (b / 16) (by omega)
    have hlo := hhV (b % 16) (by omega)
    have ih2 := ih (fun x hx => h x (by simp [hx]))
    simp only [List.map_cons, List.flatten_cons, List.cons_append, List.append_assoc]
    rw [pctBytes, if_pos rfl, pctEsc, if_pos (by simp [hhi.2, hlo.2])]
    simp only [List.nil_append]
    rw [ih2]
    cases pctBytes t <;>
      simp [hhi.1, hlo.1, show b / 16 * 16 + b % 16 = b by omega]

/-- Percent-decoding inverts `encodeURIComponent` down to the UTF-8 bytes. -/
theorem pctBytes_encURI (s : List Char) : pctBytes (encURI s) = some (utf8Enc s) := by
  induction s with
  | nil => rfl
  | cons c s2 ih =>
    have he : encURI (c :: s2) =
        (if c ∈ uriSafe then [c]
         else ((utf8Char c).map (fun b => ['%', hexDig (b / 16), hexDig (b % 16)])).flatten) ++
          encURI s2 := by
      simp [encURI]
    have henc : utf8Enc (c :: s2) = utf8Char c ++ utf8Enc s2 := by simp [utf8Enc]
    rw [he, henc]
    by_cases hc : c ∈ uriSafe
    · have hpc : ¬(c = '%') := by
        intro hEq
        subst hEq
        revert hc
        decide
      simp only [if_pos hc, List.cons_append, List.nil_append]
      rw [pctBytes, if_neg hpc, ih]
      rfl
    · simp only [if_neg hc]
      rw [pctBytes_escaped (utf8Char c) (utf8Char_lt c) (encURI s2), ih]
      rfl

/-- `decodeURIComponent` inverts `encodeURIComponent`. -/
theorem decURI_encURI (s : List Char) : decURI (encURI s) = some s := by
  simp [decURI, pctBytes_encURI, utf8Strict_utf8Enc]

/-! ## Facts about the regex scan and the encoded cookie value -/

/-- A successful literal match means every pattern character occurs in the
input. -/
theorem dropLit_mem {p s r : List Char} (h : dropLit p s = some r) :
    ∀ c ∈ p, c ∈ s := by
  induction p generalizing s with
  | nil => intro c hc; cases hc
  | cons x ps ih =>
    intro c hc
    cases s with
    | nil => cases h
    | cons y ys =>
      rw [dropLit] at h
      by_cases hxy : x = y
      · rw [if_pos hxy] at h
        rcases List.mem_cons.mp hc with rfl | hm
        · exact hxy ▸ List.mem_cons_self _ _
        · exact List.mem_cons_of_mem _ (ih h c hm)
      · rw [if_neg hxy] at h; cases h

/-- The scan fails when some pattern character never occurs in the input. -/
theorem execCap_none_of (pat s : List Char) (c : Char) (hc : c ∈ pat)
    (hs : c ∉ s) : execCap pat s = none := by
  induction s with
  | nil => rfl
  | cons x rest ih =>
    rw [execCap]
    cases hdl : dropLit pat (x :: rest) with
    | some rem => exact absurd (dropLit_mem hdl c hc) hs
    | none =>
      have hr : c ∉ rest := fun hm => hs (List.mem_cons_of_mem _ hm)
      simp only []
      exact ih hr

/-- The scan finds a match at the very front when the captured run is
non-empty and free of `;`. -/
theorem execCap_front (p0 : Char) (ps w : List Char) (hw : w ≠ [])
    (hsemi : ∀ x ∈ w, ¬(x = ';')) :
    execCap (p0 :: ps) ((p0 :: ps) ++ w) = some w := by
  have hd : dropLit (p0 :: ps) ((p0 :: ps) ++ w) = some w := dropLit_self (p0 :: ps) w
  have ht : w.takeWhile (fun x => x ≠ ';') = w :=
    List.takeWhile_eq_self_iff.mpr (by intro x hx; simpa using hsemi x hx)
  rw [show (p0 :: ps) ++ w = p0 :: (ps ++ w) from rfl, execCap]
  rw [show p0 :: (ps ++ w) = (p0 :: ps) ++ w from rfl, hd]
  simp only [ht, if_neg hw]

/-- Characters that can occur in an `encodeURIComponent` output. -/
theorem mem_encURI {x : Char} {s : List Char} (h : x ∈ encURI s) :
    x ∈ uriSafe ∨ x = '%' ∨ x ∈ hexDigits := by
  simp only [encURI, List.mem_flatten, List.mem_map] at h
  obtain ⟨piece, ⟨c, _, hpiece⟩, hx⟩ := h
  subst hpiece
  by_cases hc : c ∈ uriSafe
  · rw [if_pos hc] at hx
    simp at hx
    subst hx
    exact Or.inl hc
  · rw [if_neg hc] at hx
    simp only [List.mem_flatten, List.mem_map] at hx
    obtain ⟨triple, ⟨b, hb, htriple⟩, hx⟩ := hx
    subst htriple
    have hb256 : b < 256 := utf8Char_lt c b hb
    have hmemhex : ∀ n < 16, hexDig n ∈ hexDigits := by decide
    simp only [List.mem_cons, List.not_mem_nil, or_false] at hx
    rcases hx with rfl | rfl | rfl
    · exact Or.inr (Or.inl rfl)
    · exact Or.inr (Or.inr (hmemhex (b / 16) (by omega)))
    · exact Or.inr (Or.inr (hmemhex (b % 16) (by omega)))

/-- No character of an encoded value is `;`, `=`, or whitespace. -/
theorem encURI_chars {x : Char} {s : List Char} (h : x ∈ encURI s) :
    ¬(x = ';') ∧ ¬(x = '=') ∧ jsWsCh x = false := by
  have hall : ∀ y ∈ uriSafe ++ '%' :: hexDigits,
      ¬(y = ';') ∧ ¬(y = '=') ∧ jsWsCh y = false := by decide
  rcases mem_encURI h with hm | hm | hm
  · exact hall x (List.mem_append_left _ hm)
  · exact hall x (List.mem_append_right _ (hm ▸ List.mem_cons_self _ _))
  · exact hall x (List.mem_append_right _ (List.mem_cons_of_mem _ hm))

/-- Dropping while a predicate that holds nowhere is the identity. -/
theorem dropWhile_eq_self_of {w : Char → Bool} :
    ∀ {l : List Char}, (∀ x ∈ l, w x = false) → l.dropWhile w = l
  | [], _ => rfl
  | x :: xs, h => by
    have := h x (List.mem_cons_self _ _)
    simp [List.dropWhile_cons, this]

/-- Trimming a whitespace-free list is the identity. -/
theorem jsTrim_eq_self {l : List Char} (h : ∀ x ∈ l, jsWsCh x = false) :
    jsTrim l = l := by
  unfold jsTrim
  rw [dropWhile_eq_self_of h,
    dropWhile_eq_self_of (fun x hx => h x (List.mem_reverse.mp hx)), List.reverse_reverse]

/-- The encoding of a non-empty value is non-empty. -/
theorem encURI_ne_nil {v : List Char} (hv : v ≠ []) : encURI v ≠ [] := by
  cases v with
  | nil => exact absurd rfl hv
  | cons c v2 =>
    obtain ⟨b0, bs0, hb⟩ : ∃ b0 bs0, utf8Char c = b0 :: bs0 := by
      unfold utf8Char
      split_ifs <;> exact ⟨_, _, rfl⟩
    by_cases hc : c ∈ uriSafe <;> simp [encURI, hc, hb]

/-- After the concrete prefix `translateLang=`, a scan for `injectNote=`
fails whenever the remainder contains no `=`. -/
theorem execCap_inj_none (w : List Char) (hw : '=' ∉ w) :
    execCap "injectNote=".data ("translateLang=".data ++ w) = none := by
  have htail : execCap "injectNote=".data w = none :=
    execCap_none_of _ _ '=' (by decide) hw
  simp [execCap, dropLit, htail]

/-! ## Claims about the Preference Extractor and the cookie contract -/

/-- Names of the cookies in a `Cookie` header under standard cookie parsing
(split on `;`, trim, name up to the first `=`).  Modelled from the spec:
used only to state which cookie names a header carries. -/
def cookieNamesOf (h : List Char) : List (List Char) :=
  (h.splitOn ';').map (fun part => (jsTrim part).takeWhile (fun c => c ≠ '='))

/-- C7 (counterexample): the header `xtranslateLang=English` carries only
the cookie named `xtranslateLang` — a name outside the known set — yet the
extractor returns the translation directive rather than the default prefix,
because the regular expression matches the substring `translateLang=`. -/
theorem prefs_unknown_cookie_cex :
    cookieNamesOf "xtranslateLang=English".data = ["xtranslateLang".data] ∧
    "translateLang".data ∉ cookieNamesOf "xtranslateLang=English".data ∧
    "injectNote".data ∉ cookieNamesOf "xtranslateLang=English".data ∧
    prefsOf "xtranslateLang=English".data =
      some "Tu dois répondre en English.".data ∧
    "Tu dois répondre en English.".data ≠ defaultSys := by
  refine ⟨by decide, by decide, by decide, rfl, by decide⟩

/-- C7 (amended): the extractor returns exactly the default prefix for an
absent (empty) cookie header, and for every header in which neither
`translateLang=` nor `injectNote=` followed by a non-empty `;`-free value
occurs as a substring (matching is substring search, not cookie-name
equality); `translateLang=English` produces the directive containing the
literal `English`, and `translateLang=Fran%C3%A7ais` is percent-decoded to
`Français`. -/
theorem prefs_extractor_behaviour :
    prefsOf [] = some defaultSys ∧
    (∀ h : List Char, execCap "translateLang=".data h = none →
      execCap "injectNote=".data h = none → prefsOf h = some defaultSys) ∧
    prefsOf "translateLang=English".data =
      some "Tu dois répondre en English.".data ∧
    prefsOf "translateLang=Fran%C3%A7ais".data =
      some "Tu dois répondre en Français.".data := by
  refine ⟨rfl, ?_, rfl, rfl⟩
  intro h h1 h2
  simp [prefsOf, h1, h2, jsTrim]

/-- Witness for C7: a header with only unrelated cookies yields exactly the
default prefix. -/
theorem prefs_extractor_behaviour_witness :
    prefsOf "foo=bar; theme=dark".data = some defaultSys :=
  prefs_extractor_behaviour.2.1 "foo=bar; theme=dark".data rfl rfl

/-- C9: round trip between `set.prefs` and the Preference Extractor.  For
every non-empty language value `v` without surrounding whitespace, the
`set.prefs` action emits exactly the `Set-Cookie` value
`translateLang=<percent-encoding of v>; Path=/; HttpOnly; SameSite=Lax`,
and extracting preferences from a request carrying that cookie yields the
directive sentence containing exactly `v` (the percent-decode of the
percent-encode recovers `v`). -/
theorem prefs_cookie_roundtrip (v : List Char) (hne : v ≠ []) (htrim : jsTrim v = v) :
    setPrefsCookies (some (String.mk v)) none =
      ["translateLang=".data ++ encURI v ++ "; Path=/; HttpOnly; SameSite=Lax".data] ∧
    prefsOf ("translateLang=".data ++ encURI v) =
      some ("Tu dois répondre en ".data ++ v ++ ".".data) := by
  constructor
  · have hmk : ¬(String.mk v = "") := by
      intro hEq
      apply hne
      have := congrArg String.data hEq
      simpa using this
    simp [setPrefsCookies, hmk]
  · have henc : encURI v ≠ [] := encURI_ne_nil hne
    have hsemi : ∀ x ∈ encURI v, ¬(x = ';') := fun x hx => (encURI_chars hx).1
    have heqn : '=' ∉ encURI v := fun hx => (encURI_chars hx).2.1 rfl
    have hws : ∀ x ∈ encURI v, jsWsCh x = false := fun x hx => (encURI_chars hx).2.2
    have hexec : execCap "translateLang=".data ("translateLang=".data ++ encURI v) =
        some (encURI v) := execCap_front 't' "ranslateLang=".data (encURI v) henc hsemi
    have hinj : execCap "injectNote=".data ("translateLang=".data ++ encURI v) = none :=
      execCap_inj_none (encURI v) heqn
    have htrimenc : jsTrim (encURI v) = encURI v := jsTrim_eq_self hws
    simp only [prefsOf, hexec, hinj, Option.getD_some, Option.getD_none, htrimenc,
      show jsTrim ([] : List Char) = [] from rfl]
    rw [if_pos henc]
    simp [decURI_encURI, joinSpace]

/-- Witness for C9: the round trip at the concrete value `English`. -/
theorem prefs_cookie_roundtrip_witness :
    setPrefsCookies (some (String.mk "English".data)) none =
      ["translateLang=".data ++ encURI "English".data ++
        "; Path=/; HttpOnly; SameSite=Lax".data] ∧
    prefsOf ("translateLang=".data ++ encURI "English".data) =
      some ("Tu dois répondre en ".data ++ "English".data ++ ".".data) :=
  prefs_cookie_roundtrip "English".data (by decide) (by decide)

/-! ## Relay Handlers

Models of the two relay route handlers.  `agent3` is the streaming variant
(`phase-3-copilot-agent/src/app/api/agent/route.ts`): it checks the API key
first, defaults a malformed body to an empty history, reads preference
cookies, and forwards the upstream SSE body.  `agent2` is the non-streaming
variant (`phase-2-agent/src/app/api/agent/route.ts`): it parses and
validates the body first (a parse failure throws into the catch-all 400),
then checks the environment, then calls upstream and re-encodes the JSON
answer as a text stream.  The upstream completion client is modelled by the
response it would return; the second component of the result counts how
often it was invoked. -/

/-- String-valued property of a JSON object. -/
def jGetStr (j : Json) (k : String) : Option String :=
  match jGet j k with
  | some (.str s) => some s
  | _ => none

/-- Number-valued property of a JSON object (the numeric lexeme). -/
def jGetNum (j : Json) (k : String) : Option String :=
  match jGet j k with
  | some (.num s) => some s
  | _ => none

/-- JavaScript truthiness of a JSON value (a number is falsy when its
mantissa is zero). -/
def jsTruthy : Json → Bool
  | .null => false
  | .bool b => b
  | .str s => s ≠ ""
  | .num lex => (lex.data.takeWhile (fun c => c != 'e' && c != 'E')).any
      (fun c => c.isDigit && c != '0')
  | .arr _ => true
  | .obj _ => true

/-- An environment variable is falsy when unset or empty (`!apiKey`, and
`getEnv` returning `undefined` for the empty string). -/
def envFalsy : Option String → Bool
  | none => true
  | some s => s = ""

/-- Body of a relay response: a JSON envelope, the forwarded upstream SSE
stream, or a re-encoded single-shot text stream. -/
inductive OutBody where
  | jsonOut (j : Json)
  | sseStream
  | textStream (t : String)

/-- A relay response. -/
structure HttpOut where
  status : Nat
  body : OutBody

/-- Upstream response as seen by the streaming (phase-3) handler. -/
structure UpRes3 where
  ok : Bool
  status : Nat
  text : String
  hasBody : Bool

/-- Upstream response as seen by the non-streaming (phase-2) handler;
`jsonData = none` models `upstream.json()` throwing. -/
structure UpRes2 where
  ok : Bool
  status : Nat
  text : String
  jsonData : Option Json

/-- The upstream request constructed by a handler. -/
structure UpReq where
  sys : List Char
  user : String
  stream : Bool

/-- `messages.filter(m => m.role === "user").pop()?.content || body?.prompt
|| "Hello"` of the phase-3 handler. -/
def lastUserOf (bodyJson : Option Json) : String :=
  let msgs : List Json :=
    match bodyJson.bind (fun j => jGet j "messages") with
    | some (.arr xs) => xs
    | _ => []
  let fromMsgs : Option String :=
    match (msgs.filter (fun m => jGetStr m "role" = some "user")).getLast? with
    | some m =>
      match jGetStr m "content" with
      | some s => if s ≠ "" then some s else none
      | none => none
    | none => none
  match fromMsgs with
  | some s => s
  | none =>
    match bodyJson.bind (fun j => jGetStr j "prompt") with
    | some s => if s ≠ "" then s else "Hello"
    | none => "Hello"

/-- The phase-3 relay handler. -/
def agent3 (apiKey : Option String) (bodyJson : Option Json) (cookie : List Char)
    (up : UpRes3) : HttpOut × Nat :=
  if envFalsy apiKey then
    (HttpOut.mk 500 (.jsonOut (.obj [("error", .str "Missing OPENAI_API_KEY")])), 0)
  else
    match prefsOf cookie with
    | none =>
      -- decodeURIComponent threw a URIError; the catch-all returns its message as a 500
      (HttpOut.mk 500 (.jsonOut (.obj [("error", .str "URI malformed")])), 0)
    | some sys =>
      let _req := UpReq.mk sys (lastUserOf bodyJson) true
      if !up.ok then
        (HttpOut.mk 502 (.jsonOut (.obj [("error", .str "Upstream error"),
          ("status", .num (toString up.status)), ("body", .str up.text)])), 1)
      else if !up.hasBody then
        (HttpOut.mk 502 (.jsonOut (.obj [("error", .str "No response body")])), 1)
      else
        (HttpOut.mk 200 .sseStream, 1)

/-- The `messages` field when it is an array. -/
def msgsArrOf (j : Json) : Option (List Json) :=
  match jGet j "messages" with
  | some (.arr xs) => some xs
  | _ => none

/-- The validated message array of a request body, `none` when the body is
unparseable or `messages` is missing or not an array. -/
def bodyMsgs (b : Option Json) : Option (List Json) := b.bind msgsArrOf

/-- `messages.filter(m => m.role === "user").pop()?.content || ""` of the
phase-2 handler. -/
def lastUserOf2 (msgs : List Json) : String :=
  match (msgs.filter (fun m => jGetStr m "role" = some "user")).getLast? with
  | some m => (jGetStr m "content").getD ""
  | none => ""

/-- The phase-2 branches after a transport-level success: extract the first
choice, else report the upstream `error` field, else an unexpected
format. -/
def agent2Success (d : Json) : HttpOut × Nat :=
  match jGet d "choices" with
  | some (.arr (c0 :: _)) =>
    match (jGet c0 "message").bind (fun m => jGet m "content") with
    | some (.str s) =>
      if s ≠ "" then (HttpOut.mk 200 (.textStream s), 1)
      else agent2Fallback d
    | _ => agent2Fallback d
  | _ => agent2Fallback d
where
  agent2Fallback (d : Json) : HttpOut × Nat :=
    match jGet d "error" with
    | some e =>
      if jsTruthy e then
        (HttpOut.mk 502 (.jsonOut (.obj [("error", .str "OpenAI API error"),
          ("details", e)])), 1)
      else
        (HttpOut.mk 502 (.jsonOut (.obj [("error", .str "Unexpected response format"),
          ("data", d)])), 1)
    | none =>
      (HttpOut.mk 502 (.jsonOut (.obj [("error", .str "Unexpected response format"),
        ("data", d)])), 1)

/-- The phase-2 relay handler. -/
def agent2 (apiUrl apiKey : Option String) (bodyJson : Option Json) (up : UpRes2) :
    HttpOut × Nat :=
  match bodyJson with
  | none =>
    -- req.json() threw; the catch-all returns 400
    (HttpOut.mk 400 (.jsonOut (.obj [("error", .str "Bad Request")])), 0)
  | some j =>
    match msgsArrOf j with
    | none =>
      (HttpOut.mk 400 (.jsonOut (.obj [("error",
        .str "Invalid body: messages[] is required")])), 0)
    | some msgs =>
      if envFalsy apiUrl || envFalsy apiKey then
        (HttpOut.mk 500 (.jsonOut (.obj [("error",
          .str "Missing AGENT_API_URL or AGENT_API_KEY")])), 0)
      else
        let _req := UpReq.mk "Tu es un assistant utile et concis.".data (lastUserOf2 msgs) false
        if !up.ok then
          (HttpOut.mk 502 (.jsonOut (.obj [("error", .str "Upstream error"),
            ("status", .num (toString up.status)), ("body", .str up.text)])), 1)
        else
          match up.jsonData with
          | none =>
            -- upstream.json() threw; the catch-all returns 400
            (HttpOut.mk 400 (.jsonOut (.obj [("error", .str "Bad Request")])), 1)
          | some d => agent2Success d

/-- The response body as JSON, when it is a JSON envelope. -/
def bodyJsonOf (r : HttpOut) : Option Json :=
  match r.body with
  | .jsonOut j => some j
  | _ => none

/-- The response body carries an `error` field. -/
def errField (r : HttpOut) : Bool :=
  match bodyJsonOf r with
  | some j => (jGet j "error").isSome
  | none => false

/-! ## Claims about the Relay Handlers -/

/-- C5 (counterexample): in the phase-2 handler a request with an
unparseable body is rejected with 400 before the configuration check, so a
request under a missing credential is not always answered with a 500-class
error.  (The upstream client is still never invoked.) -/
theorem relay_missing_key_cex :
    (agent2 none none none (UpRes2.mk true 200 "" none)).1.status = 400 ∧
    (agent2 none none none (UpRes2.mk true 200 "" none)).1.status < 500 ∧
    (agent2 none none none (UpRes2.mk true 200 "" none)).2 = 0 := by
  refine ⟨rfl, by decide, rfl⟩

/-- C5 (amended): when the server configuration lacks the API credential,
the upstream client is never invoked.  The phase-3 handler always responds
500 with an `error` field in the body; the phase-2 handler responds 500
with an `error` field for every request whose body passes validation, and
otherwise rejects the request with a 400 that also carries an `error`
field and still performs no upstream call. -/
theorem relay_missing_key (key : Option String) (hkey : envFalsy key = true) :
    (∀ (b : Option Json) (cookie : List Char) (up : UpRes3),
      (agent3 key b cookie up).1.status = 500 ∧
      errField (agent3 key b cookie up).1 = true ∧
      (agent3 key b cookie up).2 = 0) ∧
    (∀ (url : Option String) (j : Json) (msgs : List Json) (up : UpRes2),
      msgsArrOf j = some msgs →
      (agent2 url key (some j) up).1.status = 500 ∧
      errField (agent2 url key (some j) up).1 = true ∧
      (agent2 url key (some j) up).2 = 0) ∧
    (∀ (url : Option String) (b : Option Json) (up : UpRes2),
      (agent2 url key b up).2 = 0 ∧ errField (agent2 url key b up).1 = true ∧
      ((agent2 url key b up).1.status = 500 ∨ (agent2 url key b up).1.status = 400)) := by
  refine ⟨?_, ?_, ?_⟩
  · intro b cookie up
    simp [agent3, hkey, errField, bodyJsonOf, jGet]
  · intro url j msgs up hmsgs
    simp [agent2, hmsgs, hkey, errField, bodyJsonOf, jGet]
  · intro url b up
    match b with
    | none => exact ⟨rfl, rfl, Or.inr rfl⟩
    | some j =>
      match hm : msgsArrOf j with
      | none =>
        refine ⟨?_, ?_, Or.inr ?_⟩ <;> simp [agent2, hm, errField, bodyJsonOf, jGet]
      | some msgs =>
        refine ⟨?_, ?_, Or.inl ?_⟩ <;> simp [agent2, hm, hkey, errField, bodyJsonOf, jGet]

/-- Witness for C5: with no credential configured, the phase-3 handler
answers 500 with an `error` field and zero upstream calls. -/
theorem relay_missing_key_witness :
    (agent3 none none [] (UpRes3.mk true 200 "" true)).1.status = 500 ∧
    errField (agent3 none none [] (UpRes3.mk true 200 "" true)).1 = true ∧
    (agent3 none none [] (UpRes3.mk true 200 "" true)).2 = 0 :=
  (relay_missing_key none rfl).1 none [] (UpRes3.mk true 200 "" true)

/-- C6: when the upstream completion call returns a non-success status,
both relay handlers answer 502 with a structured JSON error body whose
`error` field is `Upstream error`, whose `status` field is the literal
upstream status code and whose `body` field is the raw upstream response
text, after exactly one upstream call. -/
theorem relay_upstream_error :
    (∀ (key : Option String) (b : Option Json) (cookie : List Char) (s : List Char)
      (up : UpRes3), envFalsy key = false → prefsOf cookie = some s → up.ok = false →
      (agent3 key b cookie up).1.status = 502 ∧
      (bodyJsonOf (agent3 key b cookie up).1).bind (fun j => jGetStr j "error") =
        some "Upstream error" ∧
      (bodyJsonOf (agent3 key b cookie up).1).bind (fun j => jGetNum j "status") =
        some (toString up.status) ∧
      (bodyJsonOf (agent3 key b cookie up).1).bind (fun j => jGetStr j "body") =
        some up.text ∧
      (agent3 key b cookie up).2 = 1) ∧
    (∀ (url key : Option String) (j : Json) (msgs : List Json) (up : UpRes2),
      envFalsy url = false → envFalsy key = false → msgsArrOf j = some msgs →
      up.ok = false →
      (agent2 url key (some j) up).1.status = 502 ∧
      (bodyJsonOf (agent2 url key (some j) up).1).bind (fun x => jGetStr x "error") =
        some "Upstream error" ∧
      (bodyJsonOf (agent2 url key (some j) up).1).bind (fun x => jGetNum x "status") =
        some (toString up.status) ∧
      (bodyJsonOf (agent2 url key (some j) up).1).bind (fun x => jGetStr x "body") =
        some up.text ∧
      (agent2 url key (some j) up).2 = 1) := by
  constructor
  · intro key b cookie s up hkey hprefs hok
    simp [agent3, hkey, hprefs, hok, bodyJsonOf, jGetStr, jGetNum, jGet]
  · intro url key j msgs up hurl hkey hmsgs hok
    simp [agent2, hmsgs, hurl, hkey, hok, bodyJsonOf, jGetStr, jGetNum, jGet]

/-- Witness for C6: a 429 upstream answer with body `rate limited` is
relayed by the phase-3 handler as a 502 carrying both literals. -/
theorem relay_upstream_error_witness :
    (agent3 (some "k") none [] (UpRes3.mk false 429 "rate limited" true)).1.status = 502 ∧
    (bodyJsonOf (agent3 (some "k") none []
      (UpRes3.mk false 429 "rate limited" true)).1).bind (fun j => jGetStr j "error") =
      some "Upstream error" ∧
    (bodyJsonOf (agent3 (some "k") none []
      (UpRes3.mk false 429 "rate limited" true)).1).bind (fun j => jGetNum j "status") =
      some (toString 429) ∧
    (bodyJsonOf (agent3 (some "k") none []
      (UpRes3.mk false 429 "rate limited" true)).1).bind (fun j => jGetStr j "body") =
      some "rate limited" ∧
    (agent3 (some "k") none [] (UpRes3.mk false 429 "rate limited" true)).2 = 1 :=
  relay_upstream_error.1 (some "k") none [] defaultSys
    (UpRes3.mk false 429 "rate limited" true) rfl rfl rfl

/-- C8 (counterexample): the phase-3 handler does not reject a malformed
body: with a configured key and a healthy upstream, an unparseable body is
defaulted to an empty history and the request proceeds to the upstream call
and a 200 answer. -/
theorem relay_validation_cex :
    (agent3 (some "k") none [] (UpRes3.mk true 200 "" true)).1.status = 200 ∧
    (agent3 (some "k") none [] (UpRes3.mk true 200 "" true)).2 = 1 := by
  exact ⟨rfl, rfl⟩

/-- C8 (amended): in the phase-2 relay handler every request whose body is
malformed (unparseable JSON, or a missing or non-array `messages` field) is
answered 400 with an `error` field, handled locally with zero upstream
calls and no retry; the phase-3 relay handler instead substitutes an empty
history for a malformed body and performs the upstream call. -/
theorem relay_validation (b : Option Json) (hb : bodyMsgs b = none) :
    (∀ (url key : Option String) (up : UpRes2),
      (agent2 url key b up).1.status = 400 ∧ errField (agent2 url key b up).1 = true ∧
      (agent2 url key b up).2 = 0) ∧
    (∀ (key : Option String) (cookie : List Char) (s : List Char) (up : UpRes3),
      envFalsy key = false → prefsOf cookie = some s →
      (agent3 key none cookie up).2 = 1) := by
  constructor
  · intro url key up
    match b with
    | none => exact ⟨rfl, rfl, rfl⟩
    | some j =>
      have hm : msgsArrOf j = none := by simpa [bodyMsgs] using hb
      refine ⟨?_, ?_, ?_⟩ <;> simp [agent2, hm, errField, bodyJsonOf, jGet]
  · intro key cookie s up hkey hprefs
    simp only [agent3, hkey, Bool.false_eq_true, if_false, hprefs]
    by_cases hok : up.ok <;> by_cases hbody2 : up.hasBody <;> simp [hok, hbody2]

/-- Witness for C8: a concrete malformed body is rejected by the phase-2
handler with 400 and no upstream call. -/
theorem relay_validation_witness :
    (agent2 none none none (UpRes2.mk true 200 "" none)).1.status = 400 ∧
    errField (agent2 none none none (UpRes2.mk true 200 "" none)).1 = true ∧
    (agent2 none none none (UpRes2.mk true 200 "" none)).2 = 0 :=
  (relay_validation none rfl).1 none none (UpRes2.mk true 200 "" none)

end SseRelay
